import Mathlib

set_option maxHeartbeats 1000000

/-! Shallow embedding of the extraction and chunking logic of
`apps/ai_agent/src/ai_agent/services/embedding_service.py`.
Text is modelled as `List Char`, byte sequences as `List (Fin 256)`,
Python integers as `Int`. -/

/-- Characters stripped by Python `str.strip()` (and accepted by
`str.isspace`): ASCII whitespace, the C1 separators, NEL, NBSP and the
Unicode space separators. -/
def pyWs (c : Char) : Bool :=
  let n := c.toNat
  (0x09 ≤ n && n ≤ 0x0D) || n == 0x20 || (0x1C ≤ n && n ≤ 0x1F) || n == 0x85 ||
    n == 0xA0 || n == 0x1680 || (0x2000 ≤ n && n ≤ 0x200A) || n == 0x2028 ||
    n == 0x2029 || n == 0x202F || n == 0x205F || n == 0x3000

/-- Removal of trailing whitespace, the tail half of Python `str.strip()`. -/
def stripTrailing (l : List Char) : List Char :=
  (l.reverse.dropWhile pyWs).reverse

/-- Model of Python `str.strip()` with no arguments: remove leading and
trailing whitespace. -/
def pyStrip (l : List Char) : List Char :=
  (stripTrailing l).dropWhile pyWs

/-- Normalisation of a Python slice endpoint for a sequence of length `n`:
a negative index counts from the end, and the result is clamped into
`[0, n]`. -/
def pyIdx (n : Nat) (i : Int) : Nat :=
  (if i < 0 then max 0 ((n : Int) + i) else min i (n : Int)).toNat

/-- Model of Python slicing `l[i:j]` with step 1. -/
def pySlice (l : List Char) (i j : Int) : List Char :=
  (l.take (pyIdx l.length j)).drop (pyIdx l.length i)

/-- Scan behind `rfindChar`: `i` is the index of the head of the remaining
list, `acc` the index of the last occurrence seen so far (or `-1`). -/
def rfindCharAux (c : Char) : List Char → Int → Int → Int
  | [], _, acc => acc
  | x :: xs, i, acc => rfindCharAux c xs (i + 1) (if x = c then i else acc)

/-- Model of Python `str.rfind` for a one-character needle: greatest index
holding `c`, or `-1` when `c` is absent. -/
def rfindChar (l : List Char) (c : Char) : Int :=
  rfindCharAux c l 0 (-1)

/-- Scan behind `rfindNN`. -/
def rfindNNAux : List Char → Int → Int → Int
  | x :: y :: rest, i, acc =>
      rfindNNAux (y :: rest) (i + 1) (if x = '\n' ∧ y = '\n' then i else acc)
  | _, _, acc => acc

/-- Model of Python `str.rfind` applied to the two-character paragraph break
of two consecutive newlines. -/
def rfindNN (l : List Char) : Int :=
  rfindNNAux l 0 (-1)

/-- The `last_sentence` value of `chunk_text`: maximum of the `rfind` results
for the three sentence-ending marks and the paragraph break, taken over the
current window. -/
def lastSentenceIdx (chunk : List Char) : Int :=
  max (max (rfindChar chunk ('.')) (rfindChar chunk ('!')))
    (max (rfindChar chunk ('?')) (rfindNN chunk))

/-- One iteration of the while-loop body of `chunk_text`: from the current
`start` it returns the next `start` and the chunk captured by this iteration,
following the source line by line.  The source compares `last_sentence`
against `start + chunk_size * 0.5`; both sides are doubled here so that the
comparison stays in exact integer arithmetic. -/
def chunkStep (text : List Char) (chunk_size overlap : Int) (start : Int) :
    Int × List Char :=
  let n : Int := text.length
  let e := min (start + chunk_size) n
  let chunk := pySlice text start e
  if e < n then
    let ls := lastSentenceIdx chunk
    if 2 * ls > 2 * start + chunk_size then
      (ls + 1 - overlap, pySlice text start (ls + 1))
    else
      (e - overlap, chunk)
  else
    (e, chunk)

/-- Fuel-indexed model of the while loop of `chunk_text`: `none` means the
loop was still running when the fuel ran out, so termination of the source
loop is the existence of a sufficient fuel. -/
def chunkLoop (text : List Char) (chunk_size overlap : Int) :
    Nat → Int → List (List Char) → Option (List (List Char))
  | 0, start, chunks =>
    if start < (text.length : Int) then none else some chunks
  | fuel + 1, start, chunks =>
    if start < (text.length : Int) then
      chunkLoop text chunk_size overlap fuel
        (chunkStep text chunk_size overlap start).1
        (if pyStrip (chunkStep text chunk_size overlap start).2 = [] then chunks
         else chunks ++ [pyStrip (chunkStep text chunk_size overlap start).2])
    else some chunks

/-- Model of `EmbeddingService.chunk_text`: a text whose length is at most
`chunk_size` is returned whole (raw, not stripped) as the only chunk when its
stripped form is nonempty; a longer text goes through the sliding-window
loop, which runs here on explicit fuel. -/
def chunk_text (fuel : Nat) (text : List Char) (chunk_size overlap : Int) :
    Option (List (List Char)) :=
  if (text.length : Int) ≤ chunk_size then
    some (if pyStrip text = [] then [] else [text])
  else
    chunkLoop text chunk_size overlap fuel 0 []

/-- Reconstruction described by the coverage property of the spec: drop the
first `overlap` characters of every chunk but the first and concatenate. -/
def reconstructOverlap (overlap : Nat) : List (List Char) → List Char
  | [] => []
  | c :: rest => c ++ (rest.map (fun d => d.drop overlap)).flatten

/-- ASCII lowering of one character, the fragment of Python `str.lower`
relevant to media-type strings. -/
def asciiLowerChar (c : Char) : Char :=
  match c with
  | 'A' => 'a' | 'B' => 'b' | 'C' => 'c' | 'D' => 'd' | 'E' => 'e' | 'F' => 'f'
  | 'G' => 'g' | 'H' => 'h' | 'I' => 'i' | 'J' => 'j' | 'K' => 'k' | 'L' => 'l'
  | 'M' => 'm' | 'N' => 'n' | 'O' => 'o' | 'P' => 'p' | 'Q' => 'q' | 'R' => 'r'
  | 'S' => 's' | 'T' => 't' | 'U' => 'u' | 'V' => 'v' | 'W' => 'w' | 'X' => 'x'
  | 'Y' => 'y' | 'Z' => 'z'
  | other => other

/-- Model of Python `str.lower` on the ASCII range. -/
def pyLower (s : String) : String :=
  String.mk (s.data.map asciiLowerChar)

/-- Outcome of the media-type dispatch of `extract_text_from_file`: which
type-specific extractor is invoked, or the unsupported-type error with its
message. -/
inductive ExtractRoute where
  | pdfRoute : ExtractRoute
  | docxRoute : ExtractRoute
  | txtRoute : ExtractRoute
  | unsupported : String → ExtractRoute
deriving DecidableEq

/-- True on the error constructor of `ExtractRoute`. -/
def isUnsupported : ExtractRoute → Bool
  | ExtractRoute.unsupported _ => true
  | _ => false

/-- Model of the dispatch skeleton of
`EmbeddingService.extract_text_from_file`: the source lowercases the declared
type and selects one of the three extractors, or raises
`ValueError(f"Unsupported file type: ...")`; the byte content and the
filename play no part in the branch taken. -/
def extract_text_from_file (file_content : List (Fin 256)) (file_type : String)
    (filename : String) : ExtractRoute :=
  let ft := pyLower file_type
  if ft = "application/pdf" then
    ExtractRoute.pdfRoute
  else if ft = "application/vnd.openxmlformats-officedocument.wordprocessingml.document"
      ∨ ft = "application/msword" then
    ExtractRoute.docxRoute
  else if List.isPrefixOf ("text/").data ft.data
      ∨ (ft = "application/json" ∨ ft = "text/plain") then
    ExtractRoute.txtRoute
  else
    ExtractRoute.unsupported ("Unsupported file type: " ++ ft)

/-- Supported set as the claim words it: pdf, the word-processing formats,
any type under text/, and application/json; used to compare the claim's set
with the dispatch of the source. -/
def specSupported (ft : String) : Bool :=
  ft == "application/pdf" ||
    ft == "application/vnd.openxmlformats-officedocument.wordprocessingml.document" ||
    ft == "application/msword" ||
    List.isPrefixOf ("text/").data ft.data ||
    ft == "application/json"

/-- Strict UTF-8 decoding as Python `bytes.decode` with the utf-8 codec:
rejects stray continuation bytes, truncated sequences, overlong encodings,
surrogate code points and values beyond U+10FFFF. -/
def utf8Decode : List (Fin 256) → Option (List Char)
  | [] => some []
  | b :: rest =>
    if b.val < 0x80 then
      (utf8Decode rest).map (fun cs => Char.ofNat b.val :: cs)
    else if b.val < 0xC2 then none
    else if b.val < 0xE0 then
      match rest with
      | c1 :: rest2 =>
        if 0x80 ≤ c1.val ∧ c1.val < 0xC0 then
          (utf8Decode rest2).map (fun cs =>
            Char.ofNat ((b.val - 0xC0) * 0x40 + (c1.val - 0x80)) :: cs)
        else none
      | [] => none
    else if b.val < 0xF0 then
      match rest with
      | c1 :: c2 :: rest2 =>
        if (0x80 ≤ c1.val ∧ c1.val < 0xC0) ∧ (0x80 ≤ c2.val ∧ c2.val < 0xC0)
            ∧ (b.val = 0xE0 → 0xA0 ≤ c1.val) ∧ (b.val = 0xED → c1.val < 0xA0) then
          (utf8Decode rest2).map (fun cs =>
            Char.ofNat ((b.val - 0xE0) * 0x1000 + (c1.val - 0x80) * 0x40
              + (c2.val - 0x80)) :: cs)
        else none
      | _ => none
    else if b.val < 0xF5 then
      match rest with
      | c1 :: c2 :: c3 :: rest2 =>
        if (0x80 ≤ c1.val ∧ c1.val < 0xC0) ∧ (0x80 ≤ c2.val ∧ c2.val < 0xC0)
            ∧ (0x80 ≤ c3.val ∧ c3.val < 0xC0)
            ∧ (b.val = 0xF0 → 0x90 ≤ c1.val) ∧ (b.val = 0xF4 → c1.val < 0x90) then
          (utf8Decode rest2).map (fun cs =>
            Char.ofNat ((b.val - 0xF0) * 0x40000 + (c1.val - 0x80) * 0x1000
              + (c2.val - 0x80) * 0x40 + (c3.val - 0x80)) :: cs)
        else none
      | _ => none
    else none

/-- Latin-1 decoding: every byte is its own code point, so it never fails. -/
def latin1Decode (bs : List (Fin 256)) : List Char :=
  bs.map (fun b => Char.ofNat b.val)

/-- Latin-1 decoding wrapped as a fallible decoder for the fallback chain. -/
def latin1Option (bs : List (Fin 256)) : Option (List Char) :=
  some (latin1Decode bs)

/-- Windows-1252 value of a byte: the 0x80-0x9F block maps through the
cp1252 table, everything else as in Latin-1. -/
def cp1252Map (n : Nat) : Nat :=
  if n = 0x80 then 0x20AC else if n = 0x82 then 0x201A else if n = 0x83 then 0x0192
  else if n = 0x84 then 0x201E else if n = 0x85 then 0x2026 else if n = 0x86 then 0x2020
  else if n = 0x87 then 0x2021 else if n = 0x88 then 0x02C6 else if n = 0x89 then 0x2030
  else if n = 0x8A then 0x0160 else if n = 0x8B then 0x2039 else if n = 0x8C then 0x0152
  else if n = 0x8E then 0x017D else if n = 0x91 then 0x2018 else if n = 0x92 then 0x2019
  else if n = 0x93 then 0x201C else if n = 0x94 then 0x201D else if n = 0x95 then 0x2022
  else if n = 0x96 then 0x2013 else if n = 0x97 then 0x2014 else if n = 0x98 then 0x02DC
  else if n = 0x99 then 0x2122 else if n = 0x9A then 0x0161 else if n = 0x9B then 0x203A
  else if n = 0x9C then 0x0153 else if n = 0x9E then 0x017E else if n = 0x9F then 0x0178
  else n

/-- Windows-1252 decoding of one byte: the five unassigned bytes fail, as in
Python's cp1252 codec. -/
def cp1252Char (b : Fin 256) : Option Char :=
  if b.val = 0x81 ∨ b.val = 0x8D ∨ b.val = 0x8F ∨ b.val = 0x90 ∨ b.val = 0x9D then
    none
  else
    some (Char.ofNat (cp1252Map b.val))

/-- Windows-1252 decoding of a byte sequence. -/
def cp1252Decode (bs : List (Fin 256)) : Option (List Char) :=
  bs.mapM cp1252Char

/-- The fallback chain of `extract_text_from_txt`: try each decoder in order
and return the first success, as the source's for-loop over encodings. -/
def tryDecode : List (List (Fin 256) → Option (List Char)) → List (Fin 256) →
    Option (List Char)
  | [], _ => none
  | d :: ds, bs =>
    match d bs with
    | some s => some s
    | none => tryDecode ds bs

/-- Model of `EmbeddingService.extract_text_from_txt`: decode as UTF-8, on
failure Latin-1, then Windows-1252; when every decoder fails the source
raises, re-wrapped by its outer handler into the modelled error message. -/
def extract_text_from_txt (file_content : List (Fin 256)) :
    Except String (List Char) :=
  match tryDecode [utf8Decode, latin1Option, cp1252Decode] file_content with
  | some s => Except.ok s
  | none =>
    Except.error
      ("Failed to extract text from TXT: Could not decode text file with any common encoding")

/-- Model of `EmbeddingService.extract_text_from_pdf`.  The external
`PdfReader` together with `page.extract_text()` is abstracted as the
`readPdf` oracle giving the page texts in document order, or the message of
the exception it raises; the function body then follows the source: append
each page text plus a newline, strip the result, and wrap a parse failure
into `ValueError(f"Failed to extract text from PDF: ...")`. -/
def extract_text_from_pdf
    (readPdf : List (Fin 256) → Except String (List (List Char)))
    (file_content : List (Fin 256)) : Except String (List Char) :=
  match readPdf file_content with
  | Except.ok pages =>
    Except.ok (pyStrip (pages.foldl (fun acc p => acc ++ p ++ ['\n']) []))
  | Except.error e =>
    Except.error ("Failed to extract text from PDF: " ++ e)

/-- Output shape asserted by the claim for PDF extraction: pages concatenated
in document order separated by a newline, with trailing whitespace trimmed;
kept separate from the source model to compare the two. -/
def claimPdfOutput (pages : List (List Char)) : List Char :=
  stripTrailing (List.intercalate ['\n'] pages)

/-- PDF reader oracle that parses any byte sequence into the given pages. -/
def fixedPdf (pages : List (List Char)) :
    List (Fin 256) → Except String (List (List Char)) :=
  fun _ => Except.ok pages

/-- PDF reader oracle that always fails with the given message. -/
def failPdf (e : String) : List (Fin 256) → Except String (List (List Char)) :=
  fun _ => Except.error e

/-- Adversarial text for the termination claim: length 13, with
sentence-ending dots at positions 9 and 11. -/
def advText : List Char := ("aaaaaaaaa.a.a").data

/-- Text of the coverage counterexample. -/
def covText : List Char := ("aaaa bb").data

/-- Text of the boundary-preference example of the spec. -/
def sentText : List Char := ("Sentence one. Sentence two. Sentence three.").data

/-! Helper lemmas about stripping, slicing and the boundary search. -/

theorem stripTrailing_eq (l : List Char) : stripTrailing l = List.rdropWhile pyWs l :=
  rfl

theorem pyStrip_within (l : List Char) : pyStrip l <:+: l := by
  unfold pyStrip
  exact (List.dropWhile_suffix pyWs).isInfix.trans
    (stripTrailing_eq l ▸ List.IsPrefix.isInfix ( List.rdropWhile_prefix pyWs l))

theorem pyStrip_length_le (l : List Char) : (pyStrip l).length ≤ l.length :=
  (pyStrip_within l).sublist.length_le

theorem pyStrip_idem (l : List Char) : pyStrip (pyStrip l) = pyStrip l := by
  unfold pyStrip
  rw [stripTrailing_eq, stripTrailing_eq]
  have h1 : List.rdropWhile pyWs (List.dropWhile pyWs (List.rdropWhile pyWs l)) =
      List.dropWhile pyWs (List.rdropWhile pyWs l) := by
    rw [List.rdropWhile_eq_self_iff]
    intro hl
    obtain ⟨u, hu⟩ := List.dropWhile_suffix (l := List.rdropWhile pyWs l) pyWs
    have hAne : List.rdropWhile pyWs l ≠ [] := by
      intro h
      apply hl
      rw [h]
      rfl
    have key : ∀ (m₁ m₂ : List Char) (h₁ : m₁ ≠ []) (h₂ : m₂ ≠ []),
        m₁ = m₂ → m₁.getLast h₁ = m₂.getLast h₂ := by
      rintro m₁ m₂ h₁ h₂ rfl
      rfl
    have hlast : (List.dropWhile pyWs (List.rdropWhile pyWs l)).getLast hl =
        (List.rdropWhile pyWs l).getLast hAne := by
      rw [← List.getLast_append' u _ hl]
      exact key _ _ _ hAne hu
    rw [hlast]
    exact List.rdropWhile_last_not pyWs l hAne
  rw [h1, List.dropWhile_idempotent]

theorem pyIdx_le (n : Nat) (i : Int) : pyIdx n i ≤ n := by
  unfold pyIdx
  split <;> omega

theorem pySlice_length (l : List Char) (i j : Int) :
    (pySlice l i j).length = pyIdx l.length j - pyIdx l.length i := by
  have := pyIdx_le l.length j
  simp only [pySlice, List.length_drop, List.length_take]
  omega

theorem pySlice_within (l : List Char) (i j : Int) : pySlice l i j <:+: l :=
  (List.drop_suffix _ _).isInfix.trans (List.IsPrefix.isInfix ( List.take_prefix _ _))

theorem window_len_le (text : List Char) (chunk_size start : Int)
    (hS : 0 ≤ chunk_size) (hn : chunk_size ≤ (text.length : Int)) :
    ((pySlice text start (min (start + chunk_size) (text.length : Int))).length : Int)
      ≤ chunk_size := by
  rw [pySlice_length]
  simp only [pyIdx]
  split_ifs <;> omega

theorem pySlice_len_le_j (l : List Char) (i j : Int) (hj : 0 ≤ j) :
    ((pySlice l i j).length : Int) ≤ j := by
  rw [pySlice_length]
  simp only [pyIdx]
  split_ifs <;> omega

theorem rfindCharAux_cases (c : Char) : ∀ (l : List Char) (i acc : Int),
    rfindCharAux c l i acc = acc ∨
      (i ≤ rfindCharAux c l i acc ∧
        rfindCharAux c l i acc < i + l.length) := by
  intro l
  induction l with
  | nil => intro i acc; left; rfl
  | cons x xs ih =>
    intro i acc
    simp only [rfindCharAux]
    rcases ih (i + 1) (if x = c then i else acc) with h | h
    · rw [h]
      by_cases hx : x = c
      · right
        rw [if_pos hx]
        simp only [List.length_cons]
        push_cast
        omega
      · left
        rw [if_neg hx]
    · right
      simp only [List.length_cons] at h ⊢
      push_cast at h ⊢
      omega

theorem rfindChar_bounds (l : List Char) (c : Char) :
    -1 ≤ rfindChar l c ∧ rfindChar l c < l.length := by
  unfold rfindChar
  rcases rfindCharAux_cases c l 0 (-1) with h | h
  · rw [h]
    omega
  · omega

theorem rfindNNAux_cases : ∀ (l : List Char) (i acc : Int),
    rfindNNAux l i acc = acc ∨
      (i ≤ rfindNNAux l i acc ∧ rfindNNAux l i acc < i + l.length) := by
  intro l
  induction l with
  | nil => intro i acc; left; rfl
  | cons x xs ih =>
    intro i acc
    cases xs with
    | nil => left; rfl
    | cons y rest =>
      simp only [rfindNNAux]
      rcases ih (i + 1) (if x = '\n' ∧ y = '\n' then i else acc) with h | h
      · rw [h]
        by_cases hx : x = '\n' ∧ y = '\n'
        · right
          rw [if_pos hx]
          simp only [List.length_cons]
          push_cast
          omega
        · left
          rw [if_neg hx]
      · right
        simp only [List.length_cons] at h ⊢
        push_cast at h ⊢
        omega

theorem rfindNN_bounds (l : List Char) :
    -1 ≤ rfindNN l ∧ rfindNN l < l.length := by
  unfold rfindNN
  rcases rfindNNAux_cases l 0 (-1) with h | h
  · rw [h]
    omega
  · omega

theorem lastSentenceIdx_bounds (chunk : List Char) :
    -1 ≤ lastSentenceIdx chunk ∧ lastSentenceIdx chunk < chunk.length := by
  have h1 := rfindChar_bounds chunk ('.')
  have h2 := rfindChar_bounds chunk ('!')
  have h3 := rfindChar_bounds chunk ('?')
  have h4 := rfindNN_bounds chunk
  unfold lastSentenceIdx
  omega

theorem chunkStep_snd_within (text : List Char) (chunk_size overlap start : Int) :
    (chunkStep text chunk_size overlap start).2 <:+: text := by
  simp only [chunkStep]
  split_ifs <;> exact pySlice_within ..

theorem chunkStep_snd_len (text : List Char) (chunk_size overlap start : Int)
    (hS : 0 ≤ chunk_size) (hn : chunk_size ≤ (text.length : Int)) :
    (((chunkStep text chunk_size overlap start).2).length : Int) ≤ chunk_size := by
  simp only [chunkStep]
  split_ifs with h1 h2
  · dsimp only
    have hb := lastSentenceIdx_bounds
      (pySlice text start (min (start + chunk_size) (text.length : Int)))
    have hw := window_len_le text chunk_size start hS hn
    have hj : (0 : Int) ≤
        lastSentenceIdx (pySlice text start (min (start + chunk_size)
          (text.length : Int))) + 1 := by omega
    have hlen := pySlice_len_le_j text start
      (lastSentenceIdx (pySlice text start (min (start + chunk_size)
        (text.length : Int))) + 1) hj
    omega
  · exact window_len_le text chunk_size start hS hn
  · exact window_len_le text chunk_size start hS hn

theorem chunkLoop_done (text : List Char) (chunk_size overlap : Int) (fuel : Nat)
    (start : Int) (acc : List (List Char)) (h : ¬ start < (text.length : Int)) :
    chunkLoop text chunk_size overlap fuel start acc = some acc := by
  cases fuel <;> simp only [chunkLoop] <;> rw [if_neg h]

theorem chunkLoop_forall {P : List Char → Prop} (text : List Char)
    (chunk_size overlap : Int)
    (hstep : ∀ start : Int,
      pyStrip (chunkStep text chunk_size overlap start).2 ≠ [] →
      P (pyStrip (chunkStep text chunk_size overlap start).2)) :
    ∀ (fuel : Nat) (start : Int) (acc res : List (List Char)),
      (∀ c ∈ acc, P c) →
      chunkLoop text chunk_size overlap fuel start acc = some res →
      ∀ c ∈ res, P c := by
  intro fuel
  induction fuel with
  | zero =>
    intro start acc res hacc hloop
    simp only [chunkLoop] at hloop
    split at hloop
    · exact absurd hloop (by simp)
    · obtain rfl : acc = res := Option.some.inj hloop
      exact hacc
  | succ f ih =>
    intro start acc res hacc hloop
    simp only [chunkLoop] at hloop
    split at hloop
    · refine ih _ _ res ?_ hloop
      split
      · exact hacc
      · rename_i hne
        intro c hc
        rcases List.mem_append.mp hc with hc | hc
        · exact hacc c hc
        · obtain rfl : c = pyStrip (chunkStep text chunk_size overlap start).2 :=
            List.mem_singleton.mp hc
          exact hstep start hne
    · obtain rfl : acc = res := Option.some.inj hloop
      exact hacc

theorem chunkStep_fst_default (text : List Char) (start : Int)
    (h : min (start + 1000) (text.length : Int) < (text.length : Int)) :
    start + 302 ≤ (chunkStep text 1000 200 start).1 := by
  simp only [chunkStep]
  split_ifs with h1 h2 <;> dsimp only <;> omega

theorem chunkLoop_some_of_fuel (text : List Char) :
    ∀ (fuel : Nat) (start : Int) (acc : List (List Char)),
      (text.length : Int) < start + 302 * fuel →
      ∃ res, chunkLoop text 1000 200 fuel start acc = some res := by
  intro fuel
  induction fuel with
  | zero =>
    intro start acc h
    refine ⟨acc, ?_⟩
    simp only [chunkLoop]
    rw [if_neg (by omega)]
  | succ f ih =>
    intro start acc h
    by_cases hs : start < (text.length : Int)
    · simp only [chunkLoop]
      rw [if_pos hs]
      by_cases he : min (start + 1000) (text.length : Int) < (text.length : Int)
      · apply ih
        have := chunkStep_fst_default text start he
        push_cast at h ⊢
        omega
      · have h1 : (chunkStep text 1000 200 start).1 =
            min (start + 1000) (text.length : Int) := by
          simp only [chunkStep]
          rw [if_neg he]
        rw [h1]
        exact ⟨_, chunkLoop_done text 1000 200 f _ _ (by omega)⟩
    · exact ⟨acc, chunkLoop_done text 1000 200 (f + 1) start acc hs⟩

/-! Claim theorems for the chunker. -/

/-- C10: with the default parameters chunk_size 1000 and overlap 200,
chunk_text terminates on every finite text, because on every loop iteration
that does not reach the end of the text the start offset strictly increases:
by more than 300 when a sentence boundary is taken and by exactly 800
otherwise. -/
theorem chunk_text_default_terminates (text : List Char) :
    (∃ fuel res, chunk_text fuel text 1000 200 = some res) ∧
      ∀ start : Int,
        min (start + 1000) (text.length : Int) < (text.length : Int) →
        (2 * lastSentenceIdx
            (pySlice text start (min (start + 1000) (text.length : Int))) >
              2 * start + 1000 →
          start + 300 < (chunkStep text 1000 200 start).1) ∧
        (¬ 2 * lastSentenceIdx
            (pySlice text start (min (start + 1000) (text.length : Int))) >
              2 * start + 1000 →
          (chunkStep text 1000 200 start).1 = start + 800) := by
  constructor
  · by_cases hn : (text.length : Int) ≤ 1000
    · refine ⟨0, if pyStrip text = [] then [] else [text], ?_⟩
      simp only [chunk_text]
      rw [if_pos hn]
    · obtain ⟨res, hres⟩ := chunkLoop_some_of_fuel text (text.length + 1) 0 []
        (by push_cast; omega)
      refine ⟨text.length + 1, res, ?_⟩
      simp only [chunk_text]
      rw [if_neg hn]
      exact hres
  · intro start h
    constructor
    · intro hb
      simp only [chunkStep]
      rw [if_pos h, if_pos hb]
      dsimp only
      have := lastSentenceIdx_bounds
        (pySlice text start (min (start + 1000) (text.length : Int)))
      omega
    · intro hb
      simp only [chunkStep]
      rw [if_pos h, if_neg hb]
      dsimp only
      omega

/-- Closed witness for chunk_text_default_terminates: the empty text, where
the step hypotheses can be discharged at the concrete start offset -2000,
which takes the sentence-boundary branch. -/
theorem chunk_text_default_terminates_witness :
    (∃ fuel res, chunk_text fuel ([] : List Char) 1000 200 = some res) ∧
      min ((-2000 : Int) + 1000) (([] : List Char).length : Int) <
        (([] : List Char).length : Int) ∧
      2 * lastSentenceIdx (pySlice ([] : List Char) (-2000)
          (min ((-2000 : Int) + 1000) (([] : List Char).length : Int))) >
        2 * (-2000 : Int) + 1000 ∧
      (-2000 : Int) + 300 < (chunkStep ([] : List Char) 1000 200 (-2000)).1 :=
  ⟨(chunk_text_default_terminates []).1, by decide, by decide,
    ((chunk_text_default_terminates []).2 (-2000) (by decide)).1 (by decide)⟩

/-- C1: refuted termination claim.  On the 13-character text with sentence
dots at positions 9 and 11, chunk size 10 and overlap 8 (a valid pair with
0 ≤ overlap < size), the loop reaches start offset 2 and then returns to
start offset 2 forever, because the window-relative boundary index 9 is
treated as absolute: no amount of fuel makes the loop return. -/
theorem chunk_text_adv_diverges : ∀ fuel : Nat,
    chunk_text fuel advText 10 8 = none := by
  have hstep2 : chunkStep advText 10 8 2 = (2, ("aaaaaaa.").data) := by decide
  have hloop2 : ∀ (fuel : Nat) (acc : List (List Char)),
      chunkLoop advText 10 8 fuel 2 acc = none := by
    intro fuel
    induction fuel with
    | zero =>
      intro acc
      simp only [chunkLoop]
      rw [if_pos (by decide)]
    | succ f ih =>
      intro acc
      simp only [chunkLoop]
      rw [if_pos (by decide), hstep2]
      exact ih _
  intro fuel
  simp only [chunk_text]
  rw [if_neg (by decide)]
  cases fuel with
  | zero =>
    simp only [chunkLoop]
    rw [if_pos (by decide)]
  | succ f =>
    have hstep0 : chunkStep advText 10 8 0 = (2, ("aaaaaaaaa.").data) := by decide
    simp only [chunkLoop]
    rw [if_pos (by decide), hstep0]
    exact hloop2 f _

/-- C2: refuted coverage claim.  On the seven-character text of four letters,
a space and two letters, with chunk size 5 and overlap 2, the code returns
two stripped chunks; dropping the overlap prefix of the second chunk and
concatenating loses the space, so the trimmed original is not reproduced. -/
theorem chunk_text_coverage_fails :
    chunk_text 10 covText 5 2 = some [("aaaa").data, ("a bb").data] ∧
      reconstructOverlap 2 [("aaaa").data, ("a bb").data] ≠ pyStrip covText := by
  constructor
  · decide
  · decide

/-- C3 counterexample: a text of length at most the chunk size is returned
raw, not trimmed, so on a blank-padded input the claimed output (the trimmed
text as the single chunk) differs from the code's output. -/
theorem chunk_text_short_not_trimmed :
    chunk_text 0 ((" a ").data) 5 2 = some [(" a ").data] ∧
      chunk_text 0 ((" a ").data) 5 2 ≠ some [pyStrip ((" a ").data)] := by
  constructor
  · decide
  · decide

/-- C3 amended: for every text whose length is at most the chunk size,
chunk_text returns exactly one chunk equal to the raw (untrimmed) input
text, or the empty sequence when the stripped text is empty. -/
theorem chunk_text_short_returns_raw (text : List Char)
    (chunk_size overlap : Int) (fuel : Nat)
    (h : (text.length : Int) ≤ chunk_size) :
    chunk_text fuel text chunk_size overlap =
      some (if pyStrip text = [] then [] else [text]) := by
  simp only [chunk_text]
  rw [if_pos h]

/-- Closed witness for chunk_text_short_returns_raw at a concrete short
text. -/
theorem chunk_text_short_returns_raw_witness :
    (((" a ").data.length : Int) ≤ 5) ∧
      chunk_text 0 ((" a ").data) 5 2 =
        some (if pyStrip ((" a ").data) = [] then [] else [(" a ").data]) :=
  ⟨by decide, chunk_text_short_returns_raw ((" a ").data) 5 2 0 (by decide)⟩

/-- C6: every chunk returned by chunk_text is a contiguous substring of the
input text of length at most the chunk size, for every valid parameter pair
0 ≤ overlap < chunk_size. -/
theorem chunk_text_chunks_bounded (text : List Char)
    (chunk_size overlap : Int) (fuel : Nat) (res : List (List Char))
    (hO : 0 ≤ overlap) (hS : overlap < chunk_size)
    (h : chunk_text fuel text chunk_size overlap = some res) :
    ∀ c ∈ res, (c.length : Int) ≤ chunk_size ∧ c <:+: text := by
  have hS0 : (0 : Int) ≤ chunk_size := by omega
  simp only [chunk_text] at h
  by_cases hn : (text.length : Int) ≤ chunk_size
  · rw [if_pos hn] at h
    split at h
    · obtain rfl : ([] : List (List Char)) = res := Option.some.inj h
      intro c hc
      exact absurd hc (List.not_mem_nil c)
    · obtain rfl : [text] = res := Option.some.inj h
      intro c hc
      obtain rfl : c = text := List.mem_singleton.mp hc
      exact ⟨hn, ⟨[], [], by simp⟩⟩
  · rw [if_neg hn] at h
    have hn2 : chunk_size ≤ (text.length : Int) := by omega
    refine chunkLoop_forall text chunk_size overlap ?_ fuel 0 [] res
      (by intro c hc; exact absurd hc (List.not_mem_nil c)) h
    intro start hne
    constructor
    · have h1 := chunkStep_snd_len text chunk_size overlap start hS0 hn2
      have h2 := pyStrip_length_le (chunkStep text chunk_size overlap start).2
      omega
    · exact (pyStrip_within _).trans
        (chunkStep_snd_within text chunk_size overlap start)

/-- Closed witness for chunk_text_chunks_bounded at a concrete short text
and valid parameters. -/
theorem chunk_text_chunks_bounded_witness :
    ((0 : Int) ≤ 2 ∧ (2 : Int) < 5 ∧
        chunk_text 0 (("ab").data) 5 2 = some [("ab").data]) ∧
      ∀ c ∈ [("ab").data], (c.length : Int) ≤ 5 ∧ c <:+: ("ab").data :=
  ⟨⟨by decide, by decide, by decide⟩,
    chunk_text_chunks_bounded (("ab").data) 5 2 0 [("ab").data]
      (by decide) (by decide) (by decide)⟩

/-- C7: on the three-sentence example text with chunk size 20 and overlap 5,
the first chunk is exactly the first sentence, ending immediately after its
full stop, and the boundary condition of the source (at least half the
window accumulated) fires on the first window. -/
theorem chunk_text_sentence_boundary :
    chunk_text 10 sentText 20 5 =
      some [("Sentence one.").data, ("one. Sentence two.").data,
        ("two. Sentence three.").data] ∧
      2 * lastSentenceIdx (pySlice sentText 0 (min ((0 : Int) + 20)
          (sentText.length : Int))) > 2 * 0 + 20 ∧
      (("Sentence one.").data).getLast? = some ('.') := by
  refine ⟨?_, ?_, ?_⟩
  · decide
  · decide
  · decide

/-- C9: when the text is strictly longer than the chunk size, every returned
chunk is nonempty and is its own stripped form (stripped at both ends),
because the code appends the stripped candidate and skips blank ones. -/
theorem chunk_text_chunks_stripped (text : List Char)
    (chunk_size overlap : Int) (fuel : Nat) (res : List (List Char))
    (hlong : chunk_size < (text.length : Int))
    (h : chunk_text fuel text chunk_size overlap = some res) :
    ∀ c ∈ res, c ≠ [] ∧ pyStrip c = c := by
  simp only [chunk_text] at h
  rw [if_neg (by omega)] at h
  refine chunkLoop_forall text chunk_size overlap ?_ fuel 0 [] res
    (by intro c hc; exact absurd hc (List.not_mem_nil c)) h
  intro start hne
  exact ⟨hne, pyStrip_idem _⟩

/-- Closed witness for chunk_text_chunks_stripped at a concrete long text. -/
theorem chunk_text_chunks_stripped_witness :
    ((5 : Int) < (covText.length : Int) ∧
        chunk_text 10 covText 5 2 = some [("aaaa").data, ("a bb").data]) ∧
      ∀ c ∈ [("aaaa").data, ("a bb").data], c ≠ [] ∧ pyStrip c = c :=
  ⟨⟨by decide, by decide⟩,
    chunk_text_chunks_stripped covText 5 2 10 [("aaaa").data, ("a bb").data]
      (by decide) (by decide)⟩

/-! Claim theorems for the extractor. -/

/-- C5: the plain-text extractor tries UTF-8 first and falls back to
Latin-1; since Latin-1 decodes every byte sequence, the Windows-1252 step
and the decode-failure branch are unreachable and the function succeeds on
every byte sequence. -/
theorem extract_text_from_txt_total (bs : List (Fin 256)) :
    extract_text_from_txt bs =
      Except.ok ((utf8Decode bs).getD (latin1Decode bs)) := by
  simp only [extract_text_from_txt, tryDecode, latin1Option]
  cases h : utf8Decode bs <;> simp [h]

/-- C4: the media-type dispatch of extract_text_from_file depends only on
the lowercased type string; a type whose lowercase form lies outside the
supported set of the spec is rejected with the unsupported-type message
carrying that (lowercased) type string, and a type inside the set is never
rejected.  Byte content and filename do not influence the branch taken. -/
theorem extract_text_from_file_dispatch (file_content : List (Fin 256))
    (file_type other_type : String) (filename other_name : String) :
    (pyLower file_type = pyLower other_type →
      extract_text_from_file file_content file_type filename =
        extract_text_from_file file_content other_type other_name) ∧
    (specSupported (pyLower file_type) = false →
      extract_text_from_file file_content file_type filename =
        ExtractRoute.unsupported
          ("Unsupported file type: " ++ pyLower file_type)) ∧
    (specSupported (pyLower file_type) = true →
      isUnsupported (extract_text_from_file file_content file_type filename) =
        false) := by
  refine ⟨?_, ?_, ?_⟩
  · intro h
    simp only [extract_text_from_file, h]
  · intro h
    simp only [specSupported, Bool.or_eq_false_iff, beq_eq_false_iff_ne,
      ne_eq] at h
    obtain ⟨⟨⟨⟨h1, h2⟩, h3⟩, h4⟩, h5⟩ := h
    simp only [extract_text_from_file]
    rw [if_neg h1, if_neg (by
      rintro (hd | hd)
      · exact h2 hd
      · exact h3 hd), if_neg (by
      rintro (hp | hj | htp)
      · rw [h4] at hp
        exact Bool.false_ne_true hp
      · exact h5 hj
      · rw [htp] at h4
        exact absurd h4 (by decide))]
  · intro h
    simp only [extract_text_from_file]
    split_ifs with hpdf hdocx htxt
    · rfl
    · rfl
    · rfl
    · exfalso
      simp only [specSupported, Bool.or_eq_true, beq_iff_eq] at h
      rcases h with ((((h | h) | h) | h) | h)
      · exact hpdf h
      · exact hdocx (Or.inl h)
      · exact hdocx (Or.inr h)
      · exact htxt (Or.inl h)
      · exact htxt (Or.inr (Or.inl h))

/-- Closed witness for extract_text_from_file_dispatch: the made-up type of
the spec is rejected with its message, a mixed-case text type routes as its
lowercase form, and a supported mixed-case type is not rejected. -/
theorem extract_text_from_file_dispatch_witness :
    (specSupported (pyLower ("application/x-made-up")) = false ∧
      extract_text_from_file [] ("application/x-made-up") ("f.xyz") =
        ExtractRoute.unsupported
          ("Unsupported file type: " ++ pyLower ("application/x-made-up"))) ∧
    (pyLower ("TEXT/CSV") = pyLower ("text/csv") ∧
      extract_text_from_file [] ("TEXT/CSV") ("f.csv") =
        extract_text_from_file [] ("text/csv") ("f.csv")) ∧
    (specSupported (pyLower ("Application/JSON")) = true ∧
      isUnsupported
        (extract_text_from_file [] ("Application/JSON") ("f.json")) = false) :=
  ⟨⟨by decide,
      (extract_text_from_file_dispatch [] ("application/x-made-up")
        ("application/x-made-up") ("f.xyz") ("f.xyz")).2.1 (by decide)⟩,
    ⟨by decide,
      (extract_text_from_file_dispatch [] ("TEXT/CSV") ("text/csv")
        ("f.csv") ("f.csv")).1 (by decide)⟩,
    ⟨by decide,
      (extract_text_from_file_dispatch [] ("Application/JSON")
        ("Application/JSON") ("f.json") ("f.json")).2.2 (by decide)⟩⟩

theorem foldl_append_acc (pages : List (List Char)) : ∀ acc : List Char,
    pages.foldl (fun a p => a ++ p ++ ['\n']) acc =
      acc ++ pages.foldl (fun a p => a ++ p ++ ['\n']) [] := by
  induction pages with
  | nil => intro acc; simp
  | cons p ps ih =>
    intro acc
    simp only [List.foldl_cons]
    rw [ih (acc ++ p ++ ['\n']), ih ([] ++ p ++ ['\n'])]
    simp [List.append_assoc]

theorem foldl_eq_intercalate (p : List Char) (ps : List (List Char)) :
    (p :: ps).foldl (fun a q => a ++ q ++ ['\n']) [] =
      List.intercalate ['\n'] (p :: ps) ++ ['\n'] := by
  induction ps generalizing p with
  | nil => simp [List.intercalate]
  | cons q qs ih =>
    rw [show (p :: q :: qs).foldl (fun a r => a ++ r ++ ['\n']) [] =
        (q :: qs).foldl (fun a r => a ++ r ++ ['\n']) ([] ++ p ++ ['\n'])
      from rfl]
    rw [foldl_append_acc (q :: qs) ([] ++ p ++ ['\n']), ih q]
    have hint : List.intercalate ['\n'] (p :: q :: qs) =
        p ++ ['\n'] ++ List.intercalate ['\n'] (q :: qs) := by
      simp [List.intercalate, List.intersperse_cons_cons]
    rw [hint]
    simp [List.append_assoc]

theorem pyStrip_append_nl (l : List Char) : pyStrip (l ++ ['\n']) = pyStrip l := by
  have hnl : pyWs ('\n') = true := by decide
  unfold pyStrip stripTrailing
  rw [List.reverse_append]
  simp [List.dropWhile_cons, hnl]

theorem pdf_join_eq (pages : List (List Char)) :
    pyStrip (pages.foldl (fun acc p => acc ++ p ++ ['\n']) []) =
      pyStrip (List.intercalate ['\n'] pages) := by
  cases pages with
  | nil => simp [List.intercalate]
  | cons p ps => rw [foldl_eq_intercalate, pyStrip_append_nl]

/-- C8 counterexample: the source strips leading whitespace as well, so on a
parse yielding a page with leading blanks the output differs from the
claimed pages-joined-with-trailing-trim shape. -/
theorem extract_text_from_pdf_leading_ws :
    extract_text_from_pdf (fixedPdf [[' ', 'a'], ['b']]) [] =
        Except.ok (['a', '\n', 'b']) ∧
      claimPdfOutput [[' ', 'a'], ['b']] = [' ', 'a', '\n', 'b'] ∧
      extract_text_from_pdf (fixedPdf [[' ', 'a'], ['b']]) [] ≠
        Except.ok (claimPdfOutput [[' ', 'a'], ['b']]) := by
  refine ⟨rfl, by decide, ?_⟩
  intro hc
  have h1 : (['a', '\n', 'b'] : List Char) = claimPdfOutput [[' ', 'a'], ['b']] := by
    have h2 : extract_text_from_pdf (fixedPdf [[' ', 'a'], ['b']]) [] =
        Except.ok (['a', '\n', 'b']) := rfl
    rw [h2] at hc
    exact Except.ok.inj hc
  exact absurd h1 (by decide)

/-- C8 amended: PDF extraction returns the page texts concatenated in
document order with a newline separating pages and whitespace trimmed at
both ends, and fails with the wrapped extraction error when the byte
sequence is not parseable. -/
theorem extract_text_from_pdf_spec
    (readPdf : List (Fin 256) → Except String (List (List Char)))
    (file_content : List (Fin 256)) :
    (∀ pages, readPdf file_content = Except.ok pages →
      extract_text_from_pdf readPdf file_content =
        Except.ok (pyStrip (List.intercalate ['\n'] pages))) ∧
    (∀ e, readPdf file_content = Except.error e →
      extract_text_from_pdf readPdf file_content =
        Except.error ("Failed to extract text from PDF: " ++ e)) := by
  constructor
  · intro pages hp
    simp only [extract_text_from_pdf, hp]
    rw [pdf_join_eq]
  · intro e he
    simp only [extract_text_from_pdf, he]

/-- Closed witness for extract_text_from_pdf_spec discharging both
hypotheses at concrete oracles. -/
theorem extract_text_from_pdf_spec_witness :
    (fixedPdf [['a']] [] = Except.ok [['a']] ∧
      extract_text_from_pdf (fixedPdf [['a']]) [] =
        Except.ok (pyStrip (List.intercalate ['\n'] [['a']]))) ∧
    (failPdf ("bad pdf") [] = Except.error ("bad pdf") ∧
      extract_text_from_pdf (failPdf ("bad pdf")) [] =
        Except.error ("Failed to extract text from PDF: " ++ "bad pdf")) :=
  ⟨⟨rfl, (extract_text_from_pdf_spec (fixedPdf [['a']]) []).1 [['a']] rfl⟩,
    ⟨rfl, (extract_text_from_pdf_spec (failPdf ("bad pdf")) []).2
      ("bad pdf") rfl⟩⟩
